import Mathlib

/-!
Verification of the Dynamic Module Execution Engine.

Shallow embedding of the engine's core (module registry, call parser,
argument validator, input sanitizer, execution coordinator) translated from
the TypeScript sources (`ModuleManager` and `InputSanitizer`).

Modelling conventions:
* JavaScript strings are modelled as Lean `String` (lists of characters);
  lengths count characters rather than UTF-16 code units, which coincide on
  the ASCII inputs exercised here.
* JavaScript numbers are modelled by `JSNum`: NaN, the two infinities, or a
  finite value embedded as an exact rational.
* The JSON builtin `JSON.parse` and the stringification builtin `String()`
  are external runtime primitives, so they are passed in as explicit
  function parameters; every theorem below holds for all instantiations.
* Asynchrony is modelled by the outcome of a callable: it settles with a
  value, throws, or never settles.  `Promise.race` of a never-settling
  promise against the 5000 ms timeout timer deterministically yields the
  timer's rejection, which the model reflects directly.
-/

namespace DynMod

/-! ## JavaScript string primitives -/

/-- Characters removed by `String.prototype.trim` (ECMAScript WhiteSpace
    and LineTerminator sets). -/
def isJsWs (c : Char) : Bool :=
  c == ' ' || c == '\t' || c == '\n' || c == '\r' ||
  c == '\u000B' || c == '\u000C' ||
  c == '\u00A0' || c == '\u1680' ||
  (decide ('\u2000' ≤ c) && decide (c ≤ '\u200A')) ||
  c == '\u2028' || c == '\u2029' || c == '\u202F' || c == '\u205F' ||
  c == '\u3000' || c == '\uFEFF'

/-- Drop leading and trailing JavaScript whitespace from a character list. -/
def trimChars (cs : List Char) : List Char :=
  ((cs.dropWhile isJsWs).reverse.dropWhile isJsWs).reverse

/-- `String.prototype.trim`. -/
def jsTrim (s : String) : String := ⟨trimChars s.data⟩

/-- The per-character HTML escaping of `InputSanitizer.sanitizeString`
    (the replacement callback for the regex `[<>"'&]`). -/
def escapeChar (c : Char) : List Char :=
  if c = '<' then "&lt;".data
  else if c = '>' then "&gt;".data
  else if c = '"' then "&quot;".data
  else if c = '\'' then "&#x27;".data
  else if c = '&' then "&amp;".data
  else [c]

/-- Global regex replacement `[<>"'&]` over a whole character list. -/
def escapeHtmlChars (cs : List Char) : List Char := cs.flatMap escapeChar

/-- `InputSanitizer.sanitizeString`: escape the five HTML-significant
    characters, then trim.  (The `typeof` guard of the source is vacuous
    here because the input is statically a string.) -/
def sanitizeString (s : String) : String := jsTrim ⟨escapeHtmlChars s.data⟩

/-! ## JavaScript values -/

/-- A JavaScript number: NaN, an infinity, or a finite double (embedded as
    an exact rational). -/
inductive JSNum where
  | nan
  | posInf
  | negInf
  | fin (q : ℚ)
deriving DecidableEq

/-- A JavaScript value as it can appear as a function-call argument.
    `other` stands for a value of any further runtime type (function,
    symbol, ...) carrying the result of the `String()` conversion that the
    sanitizer would apply to it. -/
inductive JSValue where
  | null
  | undefined
  | str (s : String)
  | num (n : JSNum)
  | bool (b : Bool)
  | arr (xs : List JSValue)
  | obj (kvs : List (String × JSValue))
  | other (stringForm : String)

/-! ## Input sanitizer (`InputSanitizer.sanitizeParameter`) -/

/-- The clamp bound `1e10` of the number branch. -/
def NUM_LIMIT : ℚ := 10 ^ 10

/-- The number branch of `sanitizeParameter`: non-finite or NaN collapse to
    `0`; otherwise `Math.max(-1e10, Math.min(1e10, value))`. -/
def sanitizeNumber (n : JSNum) : JSNum :=
  match n with
  | .nan => .fin 0
  | .posInf => .fin 0
  | .negInf => .fin 0
  | .fin q => .fin (max (-NUM_LIMIT) (min NUM_LIMIT q))

/-- JavaScript object-key assignment `obj[k] = v` on an insertion-ordered
    key/value list: overwrite the first occurrence in place, else append. -/
def insertAssoc (acc : List (String × JSValue)) (k : String) (v : JSValue) :
    List (String × JSValue) :=
  match acc with
  | [] => [(k, v)]
  | (k', v') :: tl => if k' = k then (k, v) :: tl else (k', v') :: insertAssoc tl k v

/-- The object-rebuilding loop of `sanitizeParameter`: keep a sanitized key
    only when it is nonempty and at most 100 characters long. -/
def buildObj (entries : List (String × JSValue)) : List (String × JSValue) :=
  entries.foldl
    (fun acc kv =>
      if 0 < kv.1.length ∧ kv.1.length ≤ 100 then insertAssoc acc kv.1 kv.2 else acc)
    []

/-- `InputSanitizer.sanitizeParameter`, translated branch by branch:
    `null`/`undefined` are returned unchanged by the initial guard; strings
    are truncated to 1000 characters and then `sanitizeString`d; numbers go
    through `sanitizeNumber`; booleans pass through; arrays are truncated
    to 100 elements and sanitized element-wise; objects are truncated to 50
    entries, their keys `sanitizeString`d and filtered by length, their
    values sanitized recursively; any other value is stringified and then
    `sanitizeString`d (with no truncation step). -/
def sanitizeParameter : JSValue → JSValue
  | .null => .null
  | .undefined => .undefined
  | .str s =>
      let s' := if s.length > 1000 then (⟨s.data.take 1000⟩ : String) else s
      .str (sanitizeString s')
  | .num n => .num (sanitizeNumber n)
  | .bool b => .bool b
  | .arr xs => .arr ((xs.take 100).attach.map fun x => sanitizeParameter x.1)
  | .obj kvs =>
      .obj (buildObj ((kvs.take 50).attach.map fun kv =>
        (sanitizeString kv.1.1, sanitizeParameter kv.1.2)))
  | .other r => .str (sanitizeString r)
decreasing_by
  · have hx : x.1 ∈ xs := List.take_subset 100 xs x.2
    have := List.sizeOf_lt_of_mem hx
    simp only [JSValue.arr.sizeOf_spec]
    omega
  · have hkv : kv.1 ∈ kvs := List.take_subset 50 kvs kv.2
    have h1 := List.sizeOf_lt_of_mem hkv
    have h2 : sizeOf kv.1.2 < sizeOf kv.1 := by
      obtain ⟨k, v⟩ := kv.1
      simp only [Prod.mk.sizeOf_spec]
      omega
    simp only [JSValue.obj.sizeOf_spec]
    omega

/-- Boolean rendering of "has no leading or trailing JavaScript
    whitespace". -/
def noEdgeWs (s : String) : Bool :=
  (match s.data.head? with
   | some c => !isJsWs c
   | none => true) &&
  (match s.data.getLast? with
   | some c => !isJsWs c
   | none => true)

/-- All strings occurring in a value (string leaves and object keys) have
    no leading or trailing whitespace. -/
def strsOKb : JSValue → Bool
  | .str s => noEdgeWs s
  | .arr xs => xs.attach.all fun x => strsOKb x.1
  | .obj kvs => kvs.attach.all fun kv => noEdgeWs kv.1.1 && strsOKb kv.1.2
  | _ => true
decreasing_by
  · have := List.sizeOf_lt_of_mem x.2
    simp only [JSValue.arr.sizeOf_spec]
    omega
  · have h1 := List.sizeOf_lt_of_mem kv.2
    have h2 : sizeOf kv.1.2 < sizeOf kv.1 := by
      obtain ⟨k, v⟩ := kv.1
      simp only [Prod.mk.sizeOf_spec]
      omega
    simp only [JSValue.obj.sizeOf_spec]
    omega

/-! ## Parameter splitting (`ModuleManager.splitParameters`) -/

/-- The characters on which `splitParameters` increments its depth. -/
def isOpener (c : Char) : Bool := c == '<' || c == '(' || c == '['

/-- The characters on which `splitParameters` decrements its depth. -/
def isCloser (c : Char) : Bool := c == '>' || c == ')' || c == ']'

/-- The character loop of `ModuleManager.splitParameters`: `current` is the
    segment being accumulated, `depth` the JavaScript number `depth` (an
    integer, since `depth--` may drive it below zero), `params` the output
    accumulated so far.  A comma splits only when the depth is exactly 0;
    the final segment is kept only when its trim is nonempty. -/
def splitGo : List Char → List Char → Int → List String → List String
  | [], current, _, params =>
      if trimChars current ≠ [] then params ++ [(⟨trimChars current⟩ : String)] else params
  | c :: rest, current, depth, params =>
      if isOpener c then splitGo rest (current ++ [c]) (depth + 1) params
      else if isCloser c then splitGo rest (current ++ [c]) (depth - 1) params
      else if c = ',' ∧ depth = 0 then
        splitGo rest [] depth (params ++ [(⟨trimChars current⟩ : String)])
      else splitGo rest (current ++ [c]) depth params

/-- `ModuleManager.splitParameters`. -/
def splitParameters (paramString : String) : List String :=
  splitGo paramString.data [] 0 []

/-- Depth evolution as the claim states it: increases on `(`, `[`, `<`,
    decreases on the closers `)`, `]`, `>`, otherwise unchanged. -/
def depthStep (d : Int) (c : Char) : Int :=
  if isOpener c then d + 1 else if isCloser c then d - 1 else d

/-- Splitting a character list at exactly the commas that occur at nesting
    depth zero (the claim's description of the splitting). -/
def splitAtTopCommas : List Char → Int → List (List Char)
  | [], _ => [[]]
  | c :: rest, d =>
      if c = ',' ∧ d = 0 then [] :: splitAtTopCommas rest d
      else
        match splitAtTopCommas rest (depthStep d c) with
        | [] => [[c]]
        | seg :: segs => (c :: seg) :: segs

/-- Post-processing applied by `splitParameters` to raw segments: every
    segment is trimmed, and the final segment is dropped when blank. -/
def finalize : List (List Char) → List String
  | [] => []
  | [last] => if trimChars last ≠ [] then [(⟨trimChars last⟩ : String)] else []
  | seg :: next :: rest => (⟨trimChars seg⟩ : String) :: finalize (next :: rest)

/-- Apply a function to the first element of a list of segments. -/
def mapHead (f : List Char → List Char) : List (List Char) → List (List Char)
  | [] => []
  | x :: xs => f x :: xs

/-! ## Call parser (`ModuleManager.parseFunctionCall`) -/

/-- First character of a regex identifier `[a-zA-Z_]`. -/
def isIdentStart (c : Char) : Bool := c.isAlpha || c == '_'

/-- Continuation character of a regex identifier `[a-zA-Z0-9_]`. -/
def isIdentChar (c : Char) : Bool := isIdentStart c || c.isDigit

/-- JavaScript regex line terminators, which `.` does not match. -/
def isLineTerm (c : Char) : Bool :=
  c == '\n' || c == '\r' || c == '\u2028' || c == '\u2029'

/-- Matching of the anchored call grammar
    `^([a-zA-Z_][a-zA-Z0-9_]*)\.([a-zA-Z_][a-zA-Z0-9_]*)\((.*)\)$`.
    Because `.` is not an identifier character the greedy identifier runs
    are maximal character runs, and `(.*)\)$` forces the final character to
    be `)` with no line terminator in the argument text. -/
def matchFull (cs : List Char) : Option (String × String × String) :=
  match cs.takeWhile isIdentChar, cs.dropWhile isIdentChar with
  | c0 :: m, '.' :: r2 =>
    if isIdentStart c0 then
      match r2.takeWhile isIdentChar, r2.dropWhile isIdentChar with
      | c1 :: f, '(' :: r4 =>
        if isIdentStart c1 then
          match r4.getLast? with
          | some ')' =>
            let body := r4.dropLast
            if body.all (fun c => !isLineTerm c) then
              some ((⟨c0 :: m⟩ : String), (⟨c1 :: f⟩ : String), (⟨body⟩ : String))
            else none
          | _ => none
        else none
      | _, _ => none
    else none
  | _, _ => none

/-- Matching of the fallback regex `^[^.]*\.[^.]*\(.*\)$`: the string ends
    in `)`, and after its first dot an opening parenthesis occurs before
    any further dot, with no line terminator after the last such
    parenthesis.  (`[^.]` matches line terminators; `.` does not.) -/
def matchesLoose (cs : List Char) : Bool :=
  match cs.getLast? with
  | some ')' =>
    let body := cs.dropLast
    if body.contains '.' then
      let r := (body.dropWhile (fun c => c != '.')).drop 1
      let w := r.takeWhile (fun c => c != '.')
      let rest2 := r.dropWhile (fun c => c != '.')
      w.contains '(' &&
        (w.reverse.takeWhile (fun c => c != '(')).all (fun c => !isLineTerm c) &&
        rest2.all (fun c => !isLineTerm c)
    else false
  | _ => false

/-- Result record of `parseFunctionCall` (the source's object literal with
    an optional `error` field; the `null` return of the outer `catch` is
    unreachable for the pure computation modelled here). -/
structure ParsedCall where
  moduleName : String
  functionName : String
  args : List JSValue
  error : Option String

/-- Error text for an empty call string. -/
def emptyCallMsg : String := "Function call string is empty or invalid"

/-- Error text when the call string contains no dot. -/
def missingModuleMsg : String :=
  "Missing module name. Expected format: moduleName.functionName(args)"

/-- Error text when the call string lacks a parenthesis. -/
def missingParensMsg : String :=
  "Missing parentheses. Expected format: moduleName.functionName(args)"

/-- Error text when the shape is right but an identifier is invalid. -/
def invalidNameMsg : String :=
  "Invalid module or function name. Names must start with letter or underscore and contain only letters, numbers, and underscores"

/-- Error text for a general grammar mismatch. -/
def invalidFormatMsg : String :=
  "Invalid function call format. Expected: moduleName.functionName(args)"

/-- Error text when the argument text contains a full-width comma. -/
def fullWidthCommaMsg : String :=
  "Invalid comma character. Use English comma (,) instead of Chinese comma (，)"

/-- Error text for a trailing comma in the argument text. -/
def trailingCommaMsg : String :=
  "Trailing comma in arguments. Remove the comma after the last argument"

/-- Error text when the bracketed argument text is not valid JSON. -/
def jsonArgsMsg : String :=
  "Invalid arguments format. Use JSON-compatible values (strings in quotes, numbers, booleans, null)"

/-- `ModuleManager.parseFunctionCall`.  `jsonParseList` models the builtin
    `JSON.parse` applied to the bracket-wrapped argument text (returning
    the parsed array's elements, or `none` on a syntax error). -/
def parseFunctionCall (jsonParseList : String → Option (List JSValue))
    (callString : String) : ParsedCall :=
  if callString = "" then ⟨"", "", [], some emptyCallMsg⟩
  else
    let trimmed := jsTrim callString
    if trimmed.data.contains '.' = false then ⟨"", "", [], some missingModuleMsg⟩
    else if trimmed.data.contains '(' = false ∨ trimmed.data.contains ')' = false then
      ⟨"", "", [], some missingParensMsg⟩
    else
      match matchFull trimmed.data with
      | none =>
          if matchesLoose trimmed.data then ⟨"", "", [], some invalidNameMsg⟩
          else ⟨"", "", [], some invalidFormatMsg⟩
      | some (moduleName, functionName, argsString) =>
          if jsTrim argsString = "" then ⟨moduleName, functionName, [], none⟩
          else if argsString.data.contains '，' then
            ⟨moduleName, functionName, [], some fullWidthCommaMsg⟩
          else if (jsTrim argsString).data.getLast? = some ',' then
            ⟨moduleName, functionName, [], some trailingCommaMsg⟩
          else
            match jsonParseList ("[" ++ argsString ++ "]") with
            | some args => ⟨moduleName, functionName, args, none⟩
            | none => ⟨moduleName, functionName, [], some jsonArgsMsg⟩

/-! ## Module registry data model -/

/-- A parameter signature `{ name, type }` recovered by the extractor. -/
structure Param where
  name : String
  type : String

/-- `FunctionInfo`: metadata for one exported callable. -/
structure FunctionInfo where
  name : String
  parameters : List Param
  description : String
  exampleText : String

/-- The outcome of invoking a callable: it settles with a value, throws, or
    never settles (models the promise returned by the call). -/
inductive ExecOutcome where
  | settles (v : JSValue)
  | throws (msg : String)
  | neverSettles

/-- An exported member of a loaded module object: either a callable with
    its behavior on a given argument list, or a non-function export. -/
inductive ExportVal where
  | callable (behavior : List JSValue → ExecOutcome)
  | notCallable

/-- `ModuleInfo`: the record stored in the registry for one module. -/
structure ModuleInfo where
  functions : List FunctionInfo
  module : List (String × ExportVal)
  path : String

/-- The registry map from module name to record (insertion-ordered, as a
    JavaScript object). -/
def ModulesMap := List (String × ModuleInfo)

/-- JavaScript property lookup `map[key]` on an insertion-ordered map. -/
def lookupMap {α : Type} (m : List (String × α)) (k : String) : Option α :=
  (m.find? fun kv => kv.1 == k).map (·.2)

/-! ## Validation (`validateFunctionCall`, `validateFunctionParameters`) -/

/-- `ModuleManager.validateFunctionCall`: `true` iff the module exists and
    its export of that name is a function.  The two failure cases are
    distinguished only in `logger.warn` messages, not in the returned
    boolean. -/
def validateFunctionCall (modules : ModulesMap) (moduleName functionName : String) : Bool :=
  match lookupMap modules moduleName with
  | none => false
  | some info =>
    match lookupMap info.module functionName with
    | some (.callable _) => true
    | _ => false

/-- The per-argument missing test of `validateFunctionParameters`:
    `argValue === undefined || argValue === null || argValue === ''`. -/
def isMissingVal : JSValue → Bool
  | .undefined => true
  | .null => true
  | .str s => s == ""
  | _ => false

/-- The "missing required parameter" error text. -/
def missingParamMsg (p : Param) : String :=
  "Missing required parameter '" ++ p.name ++ "' (" ++ p.type ++ ")"

/-- The index loop of `validateFunctionParameters`: walk the declared
    parameters in order against the positional arguments; report the first
    parameter whose argument is past the end of `args`, `undefined`,
    `null`, or the empty string. -/
def checkMissing : List Param → List JSValue → Option String
  | [], _ => none
  | p :: _, [] => some (missingParamMsg p)
  | p :: ps, a :: rest => if isMissingVal a then some (missingParamMsg p) else checkMissing ps rest

/-- `ModuleManager.validateFunctionParameters` (`none` = valid; `some e` =
    the `{ isValid: false, error: e }` result). -/
def validateFunctionParameters (modules : ModulesMap) (moduleName functionName : String)
    (args : List JSValue) : Option String :=
  match lookupMap modules moduleName with
  | none => some ("Module '" ++ moduleName ++ "' not found")
  | some moduleInfo =>
    match moduleInfo.functions.find? (fun f => f.name == functionName) with
    | none =>
        some ("Function '" ++ functionName ++ "' not found in module '" ++ moduleName ++ "'")
    | some functionInfo =>
        if args.length > functionInfo.parameters.length then
          some ("Too many arguments. Expected " ++ toString functionInfo.parameters.length ++
            ", got " ++ toString args.length)
        else checkMissing functionInfo.parameters args

/-! ## Execution (`ModuleManager.executeFunction`) -/

/-- `ModuleManager.sanitizeArguments`. -/
def sanitizeArguments (args : List JSValue) : List JSValue :=
  args.map sanitizeParameter

/-- The execution timeout in milliseconds (`setTimeout(..., 5000)`). -/
def EXECUTION_TIMEOUT_MS : Nat := 5000

/-- `Promise.race([executionPromise, timeoutPromise])`: a settled value
    wins; a thrown exception is the rejection; a never-settling execution
    loses the race to the timer, whose rejection carries the message
    `Function execution timeout` at the 5000 ms deadline. -/
def raceResult : ExecOutcome → Except String JSValue
  | .settles v => .ok v
  | .throws msg => .error msg
  | .neverSettles => .error "Function execution timeout"

/-- The `{ result?, error? }` outcome of `executeFunction`. -/
inductive ExecResult where
  | ok (result : String)
  | err (error : String)
deriving DecidableEq

/-- `ModuleManager.executeFunction`.  `jp` models `JSON.parse` on the
    bracketed argument text and `jsToString` the builtin `String()`
    conversion of the settled value.  Every rejection reaching the `await`
    — a thrown exception or the timeout rejection — is caught by the
    surrounding `catch`, which returns the generic
    `Function execution failed` error.  The two `lookupMap` mismatches in
    the final stage are unreachable after successful validation and stand
    for the `TypeError` a call of `undefined` would throw into the same
    `catch`. -/
def executeFunction (jp : String → Option (List JSValue)) (jsToString : JSValue → String)
    (modules : ModulesMap) (callString : String) : ExecResult :=
  if callString = "" ∨ callString.length > 1000 then .err "Invalid call string length"
  else
    let parsed := parseFunctionCall jp callString
    match parsed.error with
    | some e => .err e
    | none =>
      if validateFunctionCall modules parsed.moduleName parsed.functionName = false then
        .err ("Function " ++ parsed.moduleName ++ "." ++ parsed.functionName ++ " not found")
      else
        match validateFunctionParameters modules parsed.moduleName parsed.functionName
            parsed.args with
        | some e => .err e
        | none =>
          let sanitizedArgs := sanitizeArguments parsed.args
          match lookupMap modules parsed.moduleName with
          | none => .err "Function execution failed"
          | some info =>
            match lookupMap info.module parsed.functionName with
            | some (.callable behavior) =>
              match raceResult (behavior sanitizedArgs) with
              | .error _ => .err "Function execution failed"
              | .ok v =>
                let resultString := jsToString v
                if resultString.length > 10000 then .err "Result too large"
                else .ok resultString
            | _ => .err "Function execution failed"

/-! ## Registry cache (`ModuleManager.getAvailableModules`) -/

/-- The mutable fields of `ModuleManager` relevant to the cache. -/
structure ManagerState where
  modulesCache : ModulesMap
  cacheTimestamp : Nat

/-- `CONFIG.CACHE_TTL` (milliseconds). -/
def CACHE_TTL : Nat := 5000

/-- What a disk scan of the scripts directory would produce: the directory
    is missing, or it yields a map of successfully loaded modules.  The
    loading itself (file I/O, `require`) is abstracted into this input. -/
inductive DiskScan where
  | missingDir
  | scanned (modules : ModulesMap)

/-- `ModuleManager.getAvailableModules`, as a function of the current
    state, the clock reading `Date.now()`, the `forceRefresh` flag and the
    abstracted disk scan.  Returns the produced map, the successor state,
    and whether the disk was consulted.  A missing scripts directory
    returns an empty map without updating the cache, mirroring the early
    return of the source. -/
def getAvailableModules (st : ManagerState) (now : Nat) (forceRefresh : Bool)
    (disk : DiskScan) : ModulesMap × ManagerState × Bool :=
  if forceRefresh = false ∧ 0 < st.modulesCache.length ∧
      now - st.cacheTimestamp < CACHE_TTL then
    (st.modulesCache, st, false)
  else
    match disk with
    | .missingDir => ([], st, true)
    | .scanned modules => (modules, ⟨modules, now⟩, true)

/-! ## Concrete fixtures used by witnesses and counterexamples -/

/-- A trivial `JSON.parse` oracle (never needed by the concrete calls
    below, whose argument lists are empty). -/
def jp0 : String → Option (List JSValue) := fun _ => none

/-- A trivial `String()` oracle. -/
def ts0 : JSValue → String := fun _ => ""

/-- An empty registry: no module at all. -/
def registryA : ModulesMap := []

/-- A registry in which module `unknown` exists but has no export named
    `test`. -/
def registryB : ModulesMap :=
  [("unknown", ⟨[], [("other", .notCallable)], ""⟩)]

/-- A registry with a module `pets` whose callable `hang` never settles and
    whose callable `boom` throws. -/
def registryC : ModulesMap :=
  [("pets",
    ⟨[⟨"hang", [], "", ""⟩, ⟨"boom", [], "", ""⟩],
     [("hang", .callable fun _ => .neverSettles),
      ("boom", .callable fun _ => .throws "boom")],
     ""⟩)]

/-- A registry with module `dog` whose callable `bark` declares parameters
    `(name: string, times: number)`. -/
def registryDog : ModulesMap :=
  [("dog",
    ⟨[⟨"bark", [⟨"name", "string"⟩, ⟨"times", "number"⟩], "", ""⟩],
     [("bark", .callable fun _ => .settles (.str "Woof"))],
     ""⟩)]

/-- A nonempty cached state for the TTL idempotence witness. -/
def cachedState : ManagerState := ⟨registryC, 100⟩

/-- A 1001-character string, one character past the sanitizer's cap. -/
def longA : String := ⟨List.replicate 1001 'a'⟩

/-! # Theorems

General lemmas about the string primitives, then one theorem per claim
(with its witness or counterexample). -/

/-- A character surviving at the head of `dropWhile p` fails `p`. -/
theorem head_dropWhile_false (p : Char → Bool) (l : List Char) (a : Char)
    (h : (l.dropWhile p).head? = some a) : p a = false := by
  have H := List.head?_dropWhile_not p l
  rw [h] at H
  exact H

/-- `dropWhile` keeps the last element of a list when its result is
    nonempty. -/
theorem getLast?_dropWhile_of_ne_nil (p : Char → Bool) :
    ∀ l : List Char, l.dropWhile p ≠ [] → (l.dropWhile p).getLast? = l.getLast? := by
  intro l
  induction l with
  | nil => intro h; simp [List.dropWhile] at h
  | cons a t ih =>
    intro h
    rw [List.dropWhile_cons] at h ⊢
    by_cases hpa : p a = true
    · rw [if_pos hpa] at h ⊢
      have ht : t ≠ [] := by
        intro he
        rw [he] at h
        simp [List.dropWhile] at h
      rw [ih h]
      obtain ⟨b, t', rfl⟩ : ∃ b t', t = b :: t' := by
        cases t with
        | nil => exact absurd rfl ht
        | cons b t' => exact ⟨b, t', rfl⟩
      rfl
    · rw [if_neg hpa]

/-- The head of a trimmed character list is not whitespace. -/
theorem trim_head_ws_false (l : List Char) (a : Char)
    (h : (trimChars l).head? = some a) : isJsWs a = false := by
  unfold trimChars at h
  rw [List.head?_reverse] at h
  have hne : (l.dropWhile isJsWs).reverse.dropWhile isJsWs ≠ [] := by
    intro he
    rw [he] at h
    simp at h
  rw [getLast?_dropWhile_of_ne_nil _ _ hne, List.getLast?_reverse] at h
  exact head_dropWhile_false _ _ _ h

/-- The last character of a trimmed character list is not whitespace. -/
theorem trim_getLast_ws_false (l : List Char) (a : Char)
    (h : (trimChars l).getLast? = some a) : isJsWs a = false := by
  unfold trimChars at h
  rw [List.getLast?_reverse] at h
  exact head_dropWhile_false _ _ _ h

/-- A trimmed character list has no whitespace at either edge. -/
theorem noEdgeWs_trim (l : List Char) : noEdgeWs ⟨trimChars l⟩ = true := by
  unfold noEdgeWs
  rw [Bool.and_eq_true]
  constructor
  · cases h : (trimChars l).head? with
    | none => simp [h]
    | some a => simp [h, trim_head_ws_false l a h]
  · cases h : (trimChars l).getLast? with
    | none => simp [h]
    | some a => simp [h, trim_getLast_ws_false l a h]

/-- Every `sanitizeString` output has no whitespace at either edge. -/
theorem noEdgeWs_sanitizeString (s : String) : noEdgeWs (sanitizeString s) = true :=
  noEdgeWs_trim _

/-- `dropWhile` is the identity on a list none of whose elements satisfy
    the predicate. -/
theorem dropWhile_eq_self_of_all (p : Char → Bool) (l : List Char)
    (h : ∀ c ∈ l, p c = false) : l.dropWhile p = l := by
  cases l with
  | nil => rfl
  | cons a t => rw [List.dropWhile_cons, if_neg (by simp [h a (List.mem_cons_self a t)])]

/-- Trimming is the identity on a list with no whitespace at all. -/
theorem trimChars_eq_self_of_all (l : List Char)
    (h : ∀ c ∈ l, isJsWs c = false) : trimChars l = l := by
  unfold trimChars
  rw [dropWhile_eq_self_of_all _ _ h,
    dropWhile_eq_self_of_all _ _ (fun c hc => h c (List.mem_reverse.mp hc)),
    List.reverse_reverse]

/-- `dropWhile` empties a list all of whose elements satisfy the
    predicate. -/
theorem dropWhile_eq_nil_of_all (p : Char → Bool) :
    ∀ l : List Char, (∀ c ∈ l, p c = true) → l.dropWhile p = [] := by
  intro l
  induction l with
  | nil => intro _; rfl
  | cons a t ih =>
    intro h
    rw [List.dropWhile_cons, if_pos (h a (List.mem_cons_self a t))]
    exact ih fun c hc => h c (List.mem_cons_of_mem a hc)

/-- Trimming a whitespace-only list yields the empty list. -/
theorem trimChars_eq_nil_of_ws (l : List Char)
    (h : ∀ c ∈ l, isJsWs c = true) : trimChars l = [] := by
  unfold trimChars
  rw [dropWhile_eq_nil_of_all _ _ h]
  rfl

/-- Whitespace characters are untouched by the HTML escaping. -/
theorem escapeChar_ws_id (c : Char) (h : isJsWs c = true) : escapeChar c = [c] := by
  have h1 : c ≠ '<' := fun e => by subst e; exact absurd h (by decide)
  have h2 : c ≠ '>' := fun e => by subst e; exact absurd h (by decide)
  have h3 : c ≠ '"' := fun e => by subst e; exact absurd h (by decide)
  have h4 : c ≠ '\'' := fun e => by subst e; exact absurd h (by decide)
  have h5 : c ≠ '&' := fun e => by subst e; exact absurd h (by decide)
  simp [escapeChar, h1, h2, h3, h4, h5]

/-- Escaping is the identity on a list whose characters all escape to
    themselves. -/
theorem escapeHtmlChars_eq_self (l : List Char)
    (h : ∀ c ∈ l, escapeChar c = [c]) : escapeHtmlChars l = l := by
  unfold escapeHtmlChars
  induction l with
  | nil => rfl
  | cons a t ih =>
    rw [List.flatMap_cons, h a (List.mem_cons_self a t),
      ih fun c hc => h c (List.mem_cons_of_mem a hc)]
    rfl

/-- Elements of `insertAssoc acc k v` are the inserted pair or elements of
    `acc`. -/
theorem mem_insertAssoc (k : String) (v : JSValue) :
    ∀ (acc : List (String × JSValue)) (x : String × JSValue),
      x ∈ insertAssoc acc k v → x = (k, v) ∨ x ∈ acc := by
  intro acc
  induction acc with
  | nil =>
    intro x hx
    simp [insertAssoc] at hx
    exact Or.inl hx
  | cons hd tl ih =>
    intro x hx
    obtain ⟨k', v'⟩ := hd
    rw [insertAssoc] at hx
    by_cases hk : k' = k
    · rw [if_pos hk] at hx
      rcases List.mem_cons.mp hx with h | h
      · exact Or.inl h
      · exact Or.inr (List.mem_cons_of_mem _ h)
    · rw [if_neg hk] at hx
      rcases List.mem_cons.mp hx with h | h
      · exact Or.inr (h ▸ List.mem_cons_self _ _)
      · rcases ih x h with h' | h'
        · exact Or.inl h'
        · exact Or.inr (List.mem_cons_of_mem _ h')

/-- Elements of the rebuilt object come from the supplied entries. -/
theorem mem_buildObj (x : String × JSValue) (entries : List (String × JSValue))
    (hx : x ∈ buildObj entries) : x ∈ entries := by
  suffices H : ∀ (l acc : List (String × JSValue)),
      x ∈ l.foldl
        (fun acc kv =>
          if 0 < kv.1.length ∧ kv.1.length ≤ 100 then insertAssoc acc kv.1 kv.2 else acc)
        acc → x ∈ acc ∨ x ∈ l by
    rcases H entries [] hx with h | h
    · exact absurd h (List.not_mem_nil x)
    · exact h
  intro l
  induction l with
  | nil => intro acc h; exact Or.inl h
  | cons kv tl ih =>
    intro acc h
    rw [List.foldl_cons] at h
    rcases ih _ h with h' | h'
    · by_cases hc : 0 < kv.1.length ∧ kv.1.length ≤ 100
      · rw [if_pos hc] at h'
        rcases mem_insertAssoc _ _ _ _ h' with h'' | h''
        · exact Or.inr (by rw [h'']; exact List.mem_cons_self _ _)
        · exact Or.inl h''
      · rw [if_neg hc] at h'
        exact Or.inl h'
    · exact Or.inr (List.mem_cons_of_mem _ h')

/-- Every string the sanitizer outputs (string leaves and object keys) has
    trimmed edges; proved by strong induction on the size of the value. -/
theorem strsOKb_sanitize_aux :
    ∀ (n : Nat) (v : JSValue), sizeOf v ≤ n → strsOKb (sanitizeParameter v) = true := by
  intro n
  induction n with
  | zero =>
    intro v hv
    exfalso
    cases v <;> simp at hv
  | succ n ih =>
    intro v hv
    cases v with
    | null => simp [sanitizeParameter, strsOKb]
    | undefined => simp [sanitizeParameter, strsOKb]
    | str s => simp [sanitizeParameter, strsOKb, noEdgeWs_sanitizeString]
    | num m => simp [sanitizeParameter, strsOKb]
    | bool b => simp [sanitizeParameter, strsOKb]
    | other r => simp [sanitizeParameter, strsOKb, noEdgeWs_sanitizeString]
    | arr xs =>
      rw [sanitizeParameter, strsOKb, List.all_eq_true]
      intro z hz
      obtain ⟨y, hy⟩ := z
      show strsOKb y = true
      simp only [List.mem_map, List.mem_attach, true_and, Subtype.exists] at hy
      obtain ⟨x, hx, rfl⟩ := hy
      have hx' : x ∈ xs := List.take_subset 100 xs hx
      have hlt := List.sizeOf_lt_of_mem hx'
      have hsz : sizeOf (JSValue.arr xs) = 1 + sizeOf xs := by simp
      exact ih x (by omega)
    | obj kvs =>
      rw [sanitizeParameter, strsOKb, List.all_eq_true]
      intro z hz
      obtain ⟨y, hy⟩ := z
      show (noEdgeWs y.1 && strsOKb y.2) = true
      have hy' := mem_buildObj _ _ hy
      simp only [List.mem_map, List.mem_attach, true_and, Subtype.exists] at hy'
      obtain ⟨kv, hkv, rfl⟩ := hy'
      have hkv' : kv ∈ kvs := List.take_subset 50 kvs hkv
      have hlt := List.sizeOf_lt_of_mem hkv'
      have h2 : sizeOf kv.2 < sizeOf kv := by
        obtain ⟨k, v⟩ := kv
        simp only [Prod.mk.sizeOf_spec]
        omega
      have hsz : sizeOf (JSValue.obj kvs) = 1 + sizeOf kvs := by simp
      rw [Bool.and_eq_true]
      exact ⟨noEdgeWs_sanitizeString _, ih kv.2 (by omega)⟩

/-- The length of the fixture string `longA`. -/
theorem longA_length : longA.length = 1001 :=
  show (List.replicate 1001 'a').length = 1001 from List.length_replicate 1001 'a'

/-- Claim C6: a string argument is first truncated to the 1000-character
    cap (to exactly 1000 characters when longer) and only then
    HTML-escaped (and finally trimmed, as `sanitizeString` does). -/
theorem sanitize_str_truncate_before_escape (s : String) :
    sanitizeParameter (.str s) = .str (jsTrim ⟨escapeHtmlChars (s.data.take 1000)⟩) ∧
    (1000 < s.length → (s.data.take 1000).length = 1000) := by
  obtain ⟨d⟩ := s
  constructor
  · rw [sanitizeParameter]
    by_cases h : (⟨d⟩ : String).length > 1000
    · rw [if_pos h]
      rfl
    · rw [if_neg h]
      have hlen : d.length ≤ 1000 := by
        simpa [String.length] using h
      rw [show (⟨d⟩ : String).data = d from rfl, List.take_of_length_le hlen]
      rfl
  · intro h
    rw [show (⟨d⟩ : String).data = d from rfl, List.length_take]
    have : 1000 < d.length := by simpa [String.length] using h
    omega

/-- Witness for C6 at a 1001-character string. -/
theorem sanitize_str_truncate_before_escape_witness :
    sanitizeParameter (.str longA) = .str (jsTrim ⟨escapeHtmlChars (longA.data.take 1000)⟩) ∧
    (longA.data.take 1000).length = 1000 :=
  ⟨(sanitize_str_truncate_before_escape longA).1,
   (sanitize_str_truncate_before_escape longA).2
     (by rw [longA_length]; norm_num)⟩

/-- Claim C7: a number argument sanitizes to `0` when NaN or non-finite,
    and is otherwise clamped to `[-1e10, 1e10]`, values inside the range
    passing through unchanged. -/
theorem sanitize_number_clamps :
    sanitizeParameter (.num .nan) = .num (.fin 0) ∧
    sanitizeParameter (.num .posInf) = .num (.fin 0) ∧
    sanitizeParameter (.num .negInf) = .num (.fin 0) ∧
    (∀ q : ℚ, sanitizeParameter (.num (.fin q)) =
      .num (.fin (max (-NUM_LIMIT) (min NUM_LIMIT q)))) ∧
    (∀ q : ℚ, -NUM_LIMIT ≤ q → q ≤ NUM_LIMIT →
      sanitizeParameter (.num (.fin q)) = .num (.fin q)) := by
  refine ⟨by simp [sanitizeParameter, sanitizeNumber], by simp [sanitizeParameter, sanitizeNumber],
    by simp [sanitizeParameter, sanitizeNumber], fun q => by simp [sanitizeParameter, sanitizeNumber],
    fun q h1 h2 => ?_⟩
  simp only [sanitizeParameter, sanitizeNumber]
  rw [min_eq_right h2, max_eq_right h1]

/-- Witness for C7 at the in-range value `5`. -/
theorem sanitize_number_clamps_witness :
    sanitizeParameter (.num (.fin 5)) = .num (.fin 5) :=
  sanitize_number_clamps.2.2.2.2 5 (by norm_num [NUM_LIMIT]) (by norm_num [NUM_LIMIT])

/-- Counterexample to claim C9: `null` is of none of the five listed
    categories, yet the sanitizer returns it unchanged instead of
    stringifying it (it is not the string `"null"`); moreover an
    other-typed value with a 1001-character string form keeps all 1001
    characters, so no truncation to the 1000-character cap is applied
    before the claimed "truncation plus HTML escaping". -/
theorem sanitize_other_counterexample :
    sanitizeParameter JSValue.null = JSValue.null ∧
    JSValue.null ≠ JSValue.str (sanitizeString "null") ∧
    sanitizeParameter (.other longA) = .str longA ∧
    1000 < longA.length := by
  have hall : ∀ c ∈ longA.data, c = 'a' := fun c hc =>
    List.eq_of_mem_replicate (show c ∈ List.replicate 1001 'a' from hc)
  have hesc : sanitizeString longA = longA := by
    unfold sanitizeString jsTrim
    rw [escapeHtmlChars_eq_self _ (fun c hc => by rw [hall c hc]; decide)]
    rw [show (⟨longA.data⟩ : String).data = longA.data from rfl]
    rw [trimChars_eq_self_of_all _ (fun c hc => by rw [hall c hc]; decide)]
  refine ⟨by simp [sanitizeParameter], fun h => JSValue.noConfusion h, ?_,
    by rw [longA_length]; norm_num⟩
  rw [sanitizeParameter, hesc]

/-- Claim C9 as amended: `null` and `undefined` pass through the initial
    guard unchanged; a value of any other non-listed runtime type is
    stringified and then sanitized as a string by `sanitizeString` alone
    (escape plus trim, with no length truncation). -/
theorem sanitize_other_amended :
    (∀ r : String, sanitizeParameter (.other r) = .str (sanitizeString r)) ∧
    sanitizeParameter JSValue.null = JSValue.null ∧
    sanitizeParameter JSValue.undefined = JSValue.undefined :=
  ⟨fun r => by simp [sanitizeParameter], by simp [sanitizeParameter], by simp [sanitizeParameter]⟩

/-- Claim C10: every string produced by the sanitizer — a sanitized string
    argument, a sanitized object key, or the stringification of an
    other-typed value — has no leading or trailing whitespace, because
    `sanitizeString` ends with a trim after escaping; in particular a
    whitespace-only string argument sanitizes to the empty string. -/
theorem sanitizer_output_strings_trimmed :
    (∀ s : String, noEdgeWs (sanitizeString s) = true) ∧
    (∀ v : JSValue, strsOKb (sanitizeParameter v) = true) ∧
    (∀ s : String, (∀ c ∈ s.data, isJsWs c = true) → sanitizeParameter (.str s) = .str "") := by
  refine ⟨noEdgeWs_sanitizeString, fun v => strsOKb_sanitize_aux (sizeOf v) v le_rfl, ?_⟩
  intro s hws
  rw [sanitizeParameter]
  have htake : ∀ c ∈ s.data.take 1000, isJsWs c = true :=
    fun c hc => hws c (List.take_subset 1000 s.data hc)
  by_cases h : s.length > 1000
  · rw [if_pos h]
    unfold sanitizeString jsTrim
    rw [show (⟨s.data.take 1000⟩ : String).data = s.data.take 1000 from rfl]
    rw [escapeHtmlChars_eq_self _ (fun c hc => escapeChar_ws_id c (htake c hc))]
    rw [show (⟨s.data.take 1000⟩ : String).data = s.data.take 1000 from rfl]
    rw [trimChars_eq_nil_of_ws _ htake]
  · rw [if_neg h]
    unfold sanitizeString jsTrim
    rw [escapeHtmlChars_eq_self _ (fun c hc => escapeChar_ws_id c (hws c hc))]
    rw [trimChars_eq_nil_of_ws _ hws]

/-- Witness for C10 at a whitespace-only string. -/
theorem sanitizer_output_strings_trimmed_witness :
    sanitizeParameter (.str "  ") = .str "" :=
  sanitizer_output_strings_trimmed.2.2 "  " (by decide)

/-- `splitAtTopCommas` always yields at least one segment. -/
theorem splitAtTopCommas_ne_nil : ∀ (cs : List Char) (d : Int), splitAtTopCommas cs d ≠ [] := by
  intro cs d
  cases cs with
  | nil => simp [splitAtTopCommas]
  | cons c rest =>
    rw [splitAtTopCommas]
    by_cases h : c = ',' ∧ d = 0
    · rw [if_pos h]; simp
    · rw [if_neg h]
      cases splitAtTopCommas rest (depthStep d c) <;> simp

/-- `finalize` on at least two segments trims the first and recurses. -/
theorem finalize_cons_of_ne_nil (seg : List Char) (segs : List (List Char)) (h : segs ≠ []) :
    finalize (seg :: segs) = (⟨trimChars seg⟩ : String) :: finalize segs := by
  cases segs with
  | nil => exact absurd rfl h
  | cons a b => rw [finalize]

/-- Opening characters are not the comma. -/
theorem isOpener_ne_comma (c : Char) (h : isOpener c = true) : c ≠ ',' :=
  fun e => by subst e; exact absurd h (by decide)

/-- Closing characters are not the comma. -/
theorem isCloser_ne_comma (c : Char) (h : isCloser c = true) : c ≠ ',' :=
  fun e => by subst e; exact absurd h (by decide)

/-- `mapHead` with prepending the empty list is the identity. -/
theorem mapHead_nil_append (L : List (List Char)) :
    mapHead (fun t => [] ++ t) L = L := by
  cases L <;> simp [mapHead]

/-- The accumulator loop of `splitParameters` computes: previously emitted
    segments, followed by the finalized depth-zero-comma split of the rest
    with `current` prepended to its first segment. -/
theorem splitGo_spec :
    ∀ (cs current : List Char) (d : Int) (params : List String),
      splitGo cs current d params =
        params ++ finalize (mapHead (fun t => current ++ t) (splitAtTopCommas cs d)) := by
  intro cs
  induction cs with
  | nil =>
    intro current d params
    rw [splitGo, splitAtTopCommas]
    show _ = params ++ finalize [current ++ []]
    rw [List.append_nil]
    by_cases h : trimChars current ≠ []
    · rw [if_pos h, finalize, if_pos h]
    · rw [if_neg h, finalize, if_neg h, List.append_nil]
  | cons c rest ih =>
    intro current d params
    by_cases hcomma : c = ',' ∧ d = 0
    · obtain ⟨rfl, rfl⟩ := hcomma
      rw [splitGo, if_neg (by decide), if_neg (by decide), if_pos ⟨rfl, rfl⟩, ih,
        splitAtTopCommas, if_pos ⟨rfl, rfl⟩, mapHead_nil_append]
      show _ = params ++ finalize ((current ++ []) :: splitAtTopCommas rest 0)
      rw [List.append_nil,
        finalize_cons_of_ne_nil _ _ (splitAtTopCommas_ne_nil rest 0), List.append_assoc]
      rfl
    · have hd : depthStep d c = if isOpener c then d + 1 else if isCloser c then d - 1 else d :=
        rfl
      obtain ⟨seg, segs, hS⟩ :
          ∃ seg segs, splitAtTopCommas rest (depthStep d c) = seg :: segs := by
        cases hS : splitAtTopCommas rest (depthStep d c) with
        | nil => exact absurd hS (splitAtTopCommas_ne_nil rest (depthStep d c))
        | cons a b => exact ⟨a, b, rfl⟩
      have hrhs : splitAtTopCommas (c :: rest) d = (c :: seg) :: segs := by
        rw [splitAtTopCommas, if_neg hcomma, hS]
      rw [hrhs]
      show _ = params ++ finalize ((current ++ (c :: seg)) :: segs)
      have happ : current ++ (c :: seg) = (current ++ [c]) ++ seg := by
        rw [List.append_assoc, List.singleton_append]
      rw [happ]
      by_cases hop : isOpener c = true
      · have hdd : depthStep d c = d + 1 := by rw [hd, if_pos hop]
        rw [splitGo, if_pos hop, ih, ← hdd, hS]
        rfl
      · by_cases hcl : isCloser c = true
        · have hdd : depthStep d c = d - 1 := by rw [hd, if_neg (by simp [hop]), if_pos hcl]
          rw [splitGo, if_neg (by simp [hop]), if_pos hcl, ih, ← hdd, hS]
          rfl
        · have hdd : depthStep d c = d := by
            rw [hd, if_neg (by simp [hop]), if_neg (by simp [hcl])]
          rw [splitGo, if_neg (by simp [hop]), if_neg (by simp [hcl]), if_neg hcomma, ih, ← hdd,
            hS]
          rfl

/-- Claim C8: `splitParameters` splits exactly at the commas occurring at
    nesting depth zero (depth up on `(`, `[`, `<`; down on the closers),
    so commas nested inside generic, array, or call syntax never split;
    segments are trimmed and a blank final segment is dropped, as the
    source loop does.  The second conjunct shows a nested generic and a
    nested call surviving a split on a concrete signature. -/
theorem splitParameters_at_depth_zero_commas :
    (∀ s : String, splitParameters s = finalize (splitAtTopCommas s.data 0)) ∧
    splitParameters "a: Map<string, number>, b: (x, y)" =
      ["a: Map<string, number>", "b: (x, y)"] := by
  constructor
  · intro s
    rw [splitParameters, splitGo_spec, mapHead_nil_append, List.nil_append]
  · decide

/-- The parameter scan reports exactly the first index whose argument is
    absent or a missing value, naming that parameter. -/
theorem checkMissing_spec :
    ∀ (i : Nat) (ps : List Param) (args : List JSValue),
      i < ps.length →
      (∀ j, j < i → ∃ a, args[j]? = some a ∧ isMissingVal a = false) →
      (args.length ≤ i ∨ ∃ a, args[i]? = some a ∧ isMissingVal a = true) →
      ∃ p, ps[i]? = some p ∧ checkMissing ps args = some (missingParamMsg p) := by
  intro i
  induction i with
  | zero =>
    intro ps args hlen _hprev hmiss
    obtain ⟨p, ps', rfl⟩ : ∃ p ps', ps = p :: ps' := by
      cases ps with
      | nil => simp at hlen
      | cons p ps' => exact ⟨p, ps', rfl⟩
    cases args with
    | nil => exact ⟨p, by simp, rfl⟩
    | cons a rest =>
      rcases hmiss with h | ⟨a', ha', hm⟩
      · simp at h
      · rw [List.getElem?_cons_zero] at ha'
        obtain rfl : a = a' := by injection ha'
        exact ⟨p, by simp, by rw [checkMissing, if_pos hm]⟩
  | succ i ih =>
    intro ps args hlen hprev hmiss
    obtain ⟨p, ps', rfl⟩ : ∃ p ps', ps = p :: ps' := by
      cases ps with
      | nil => simp at hlen
      | cons p ps' => exact ⟨p, ps', rfl⟩
    obtain ⟨a0, ha0, hm0⟩ := hprev 0 (Nat.zero_lt_succ i)
    obtain ⟨rest, rfl⟩ : ∃ rest, args = a0 :: rest := by
      cases args with
      | nil => simp at ha0
      | cons b rest =>
        rw [List.getElem?_cons_zero] at ha0
        obtain rfl : b = a0 := by injection ha0
        exact ⟨rest, rfl⟩
    have hrec := ih ps' rest (by simpa using hlen)
      (fun j hj => by
        have := hprev (j + 1) (Nat.succ_lt_succ hj)
        simpa using this)
      (by
        rcases hmiss with h | ⟨a, ha, hm⟩
        · exact Or.inl (by simpa using h)
        · exact Or.inr ⟨a, by simpa using ha, hm⟩)
    obtain ⟨p', hp', hc'⟩ := hrec
    exact ⟨p', by simpa using hp', by rw [checkMissing, if_neg (by simp [hm0]), hc']⟩

/-- Claim C4: when the argument count does not exceed the declared
    parameter count, the validator scans declared parameters in order and
    reports, for the first index whose argument is absent, `null`,
    `undefined`, or the empty string, a "missing required parameter" error
    naming that parameter's name and type, stopping at the first
    offense. -/
theorem validate_params_first_missing
    (modules : ModulesMap) (m f : String) (args : List JSValue)
    (info : ModuleInfo) (fi : FunctionInfo) (i : Nat)
    (h1 : lookupMap modules m = some info)
    (h2 : info.functions.find? (fun g => g.name == f) = some fi)
    (h3 : args.length ≤ fi.parameters.length)
    (h4 : i < fi.parameters.length)
    (h5 : ∀ j, j < i → ∃ a, args[j]? = some a ∧ isMissingVal a = false)
    (h6 : args.length ≤ i ∨ ∃ a, args[i]? = some a ∧ isMissingVal a = true) :
    ∃ p, fi.parameters[i]? = some p ∧
      validateFunctionParameters modules m f args = some (missingParamMsg p) := by
  obtain ⟨p, hp, hc⟩ := checkMissing_spec i fi.parameters args h4 h5 h6
  refine ⟨p, hp, ?_⟩
  simp only [validateFunctionParameters, h1, h2]
  rw [if_neg (by omega)]
  exact hc

/-- Witness for C4: `dog.bark()` against declared `(name, times)` names
    `name` — the first missing parameter wins even though both are
    missing. -/
theorem validate_params_first_missing_witness :
    validateFunctionParameters registryDog "dog" "bark" [] =
      some "Missing required parameter 'name' (string)" := by
  obtain ⟨p, hp, hc⟩ :=
    validate_params_first_missing registryDog "dog" "bark" []
      ⟨[⟨"bark", [⟨"name", "string"⟩, ⟨"times", "number"⟩], "", ""⟩],
       [("bark", .callable fun _ => .settles (.str "Woof"))], ""⟩
      ⟨"bark", [⟨"name", "string"⟩, ⟨"times", "number"⟩], "", ""⟩ 0
      rfl rfl (by simp) (by simp)
      (fun j hj => absurd hj (Nat.not_lt_zero j)) (Or.inl (by simp))
  rw [List.getElem?_cons_zero] at hp
  obtain rfl : Param.mk "name" "string" = p := by injection hp
  exact hc

/-- Claim C1, evaluated at the failing input: for the call string
    `unknown.test()` the engine returns the very same error — `Function
    unknown.test not found` — when module `unknown` is absent from the
    registry (`registryA`) and when the module exists but has no callable
    export `test` (`registryB`): the returned error kinds are not
    distinct, and neither reads "module not found".  This contradicts the
    repository README, which documents `unknown.test()` → `Module
    'unknown' not found`; the distinct wordings survive only in
    `logger.warn` inside `validateFunctionCall` and in the unreached
    `validateFunctionParameters` messages. -/
theorem module_not_found_error_counterexample :
    executeFunction jp0 ts0 registryA "unknown.test()" =
      .err "Function unknown.test not found" ∧
    executeFunction jp0 ts0 registryB "unknown.test()" =
      .err "Function unknown.test not found" :=
  ⟨rfl, rfl⟩

/-- Claim C1 as amended: whenever the parse succeeds and
    `validateFunctionCall` fails — whether because the module is absent or
    because the export is absent or not callable — `executeFunction`
    returns the single collapsed error `Function <module>.<function> not
    found`. -/
theorem module_not_found_error_collapsed
    (jp : String → Option (List JSValue)) (ts : JSValue → String)
    (modules : ModulesMap) (s m f : String) (args : List JSValue)
    (h0 : s ≠ "") (h1 : s.length ≤ 1000)
    (h2 : parseFunctionCall jp s = ⟨m, f, args, none⟩)
    (h3 : validateFunctionCall modules m f = false) :
    executeFunction jp ts modules s =
      .err ("Function " ++ m ++ "." ++ f ++ " not found") := by
  rw [executeFunction, if_neg (by push_neg; exact ⟨h0, by omega⟩)]
  simp [h2, h3]

/-- Witness for C1 (amended) at the empty registry. -/
theorem module_not_found_error_collapsed_witness :
    executeFunction jp0 ts0 registryA "unknown.test()" =
      .err ("Function " ++ "unknown" ++ "." ++ "test" ++ " not found") :=
  module_not_found_error_collapsed jp0 ts0 registryA "unknown.test()"
    "unknown" "test" [] (by decide) (by decide) rfl rfl

/-- Counterexample to claim C2: with `registryC`, the never-settling
    callable `pets.hang` makes `executeFunction` resolve — but with the
    generic `Function execution failed` error, byte-identical to the
    outcome of the throwing callable `pets.boom`, and distinct from the
    internal timeout rejection message: the surfaced timeout is not a
    distinct error kind. -/
theorem timeout_error_not_distinct_counterexample :
    executeFunction jp0 ts0 registryC "pets.hang()" = .err "Function execution failed" ∧
    executeFunction jp0 ts0 registryC "pets.boom()" = .err "Function execution failed" ∧
    ("Function execution failed" : String) ≠ "Function execution timeout" :=
  ⟨rfl, rfl, by decide⟩

/-- Claim C2 as amended: a validated call whose callable never settles
    resolves (via the 5000 ms `Promise.race`, whose rejection carries
    `Function execution timeout`) but is surfaced as the generic
    `Function execution failed` error produced by the surrounding `catch`,
    the same error a throwing callable produces.  The real-time aspects
    (resolution at, not before, the deadline, and the computation being
    abandoned but not interrupted) are outside this model. -/
theorem timeout_resolves_with_generic_error
    (jp : String → Option (List JSValue)) (ts : JSValue → String)
    (modules : ModulesMap) (s m f : String) (args : List JSValue)
    (info : ModuleInfo) (behavior : List JSValue → ExecOutcome)
    (h0 : s ≠ "") (h1 : s.length ≤ 1000)
    (h2 : parseFunctionCall jp s = ⟨m, f, args, none⟩)
    (h3 : lookupMap modules m = some info)
    (h4 : lookupMap info.module f = some (.callable behavior))
    (h5 : validateFunctionParameters modules m f args = none)
    (h6 : behavior (sanitizeArguments args) = .neverSettles) :
    executeFunction jp ts modules s = .err "Function execution failed" := by
  have hv : validateFunctionCall modules m f = true := by
    simp only [validateFunctionCall, h3, h4]
  rw [executeFunction, if_neg (by push_neg; exact ⟨h0, by omega⟩)]
  simp [h2, hv, h5, h3, h4, h6, raceResult]

/-- Witness for C2 (amended) at `pets.hang()` in `registryC`. -/
theorem timeout_resolves_with_generic_error_witness :
    executeFunction jp0 ts0 registryC "pets.hang()" = .err "Function execution failed" :=
  timeout_resolves_with_generic_error jp0 ts0 registryC "pets.hang()"
    "pets" "hang" []
    ⟨[⟨"hang", [], "", ""⟩, ⟨"boom", [], "", ""⟩],
     [("hang", .callable fun _ => .neverSettles),
      ("boom", .callable fun _ => .throws "boom")], ""⟩
    (fun _ => .neverSettles)
    (by decide) (by decide) rfl rfl rfl rfl rfl

/-- Claim C5: with `forceRefresh = false`, a nonempty cache and an age
    below the TTL, `getAvailableModules` returns the cached map unchanged,
    leaves the state untouched and performs no disk access; hence two such
    calls within the TTL window return the identical map. -/
theorem cached_modules_within_ttl
    (st : ManagerState) (now now2 : Nat) (disk disk2 : DiskScan)
    (hne : 0 < st.modulesCache.length)
    (h1 : now - st.cacheTimestamp < CACHE_TTL) :
    getAvailableModules st now false disk = (st.modulesCache, st, false) ∧
    (now2 - st.cacheTimestamp < CACHE_TTL →
      getAvailableModules (getAvailableModules st now false disk).2.1 now2 false disk2 =
        (st.modulesCache, st, false)) := by
  have hfst : getAvailableModules st now false disk = (st.modulesCache, st, false) := by
    rw [getAvailableModules.eq_def, if_pos ⟨rfl, hne, h1⟩]
  refine ⟨hfst, fun h2 => ?_⟩
  rw [hfst]
  show getAvailableModules st now2 false disk2 = _
  rw [getAvailableModules.eq_def, if_pos ⟨rfl, hne, h2⟩]

/-- Witness for C5 on a concrete nonempty cached state (two reads at 101 ms
    and 102 ms against a timestamp of 100 ms and a TTL of 5000 ms). -/
theorem cached_modules_within_ttl_witness :
    getAvailableModules cachedState 101 false .missingDir =
      (cachedState.modulesCache, cachedState, false) ∧
    getAvailableModules (getAvailableModules cachedState 101 false .missingDir).2.1 102 false
        (.scanned []) = (cachedState.modulesCache, cachedState, false) := by
  have h := cached_modules_within_ttl cachedState 101 102 .missingDir (.scanned [])
    (by decide) (by decide)
  exact ⟨h.1, h.2 (by decide)⟩

/-- Claim C3: the parser applies its diagnostic checks in the stated order
    — empty input, missing dot, missing parentheses, grammar mismatch
    (identifier-specific when the loose shape `x.y(...)` matches, generic
    otherwise), full-width comma, trailing comma, then JSON parsing — and
    returns the specific error of the first failing check, for every
    `JSON.parse` oracle `jp`; in particular an argument text containing the
    full-width comma yields the comma-character error regardless of what
    JSON parsing would do. -/
theorem parser_ordered_diagnostics
    (jp : String → Option (List JSValue)) (s : String) :
    (s = "" → parseFunctionCall jp s = ⟨"", "", [], some emptyCallMsg⟩) ∧
    (s ≠ "" → '.' ∉ (jsTrim s).data →
      parseFunctionCall jp s = ⟨"", "", [], some missingModuleMsg⟩) ∧
    (s ≠ "" → '.' ∈ (jsTrim s).data →
      ('(' ∉ (jsTrim s).data ∨ ')' ∉ (jsTrim s).data) →
      parseFunctionCall jp s = ⟨"", "", [], some missingParensMsg⟩) ∧
    (s ≠ "" → '.' ∈ (jsTrim s).data →
      '(' ∈ (jsTrim s).data → ')' ∈ (jsTrim s).data →
      matchFull (jsTrim s).data = none → matchesLoose (jsTrim s).data = true →
      parseFunctionCall jp s = ⟨"", "", [], some invalidNameMsg⟩) ∧
    (s ≠ "" → '.' ∈ (jsTrim s).data →
      '(' ∈ (jsTrim s).data → ')' ∈ (jsTrim s).data →
      matchFull (jsTrim s).data = none → matchesLoose (jsTrim s).data = false →
      parseFunctionCall jp s = ⟨"", "", [], some invalidFormatMsg⟩) ∧
    (∀ m f a, s ≠ "" → '.' ∈ (jsTrim s).data →
      '(' ∈ (jsTrim s).data → ')' ∈ (jsTrim s).data →
      matchFull (jsTrim s).data = some (m, f, a) → jsTrim a ≠ "" →
      '，' ∈ a.data →
      parseFunctionCall jp s = ⟨m, f, [], some fullWidthCommaMsg⟩) ∧
    (∀ m f a, s ≠ "" → '.' ∈ (jsTrim s).data →
      '(' ∈ (jsTrim s).data → ')' ∈ (jsTrim s).data →
      matchFull (jsTrim s).data = some (m, f, a) → jsTrim a ≠ "" →
      '，' ∉ a.data → (jsTrim a).data.getLast? = some ',' →
      parseFunctionCall jp s = ⟨m, f, [], some trailingCommaMsg⟩) ∧
    (∀ m f a, s ≠ "" → '.' ∈ (jsTrim s).data →
      '(' ∈ (jsTrim s).data → ')' ∈ (jsTrim s).data →
      matchFull (jsTrim s).data = some (m, f, a) → jsTrim a ≠ "" →
      '，' ∉ a.data → (jsTrim a).data.getLast? ≠ some ',' →
      jp ("[" ++ a ++ "]") = none →
      parseFunctionCall jp s = ⟨m, f, [], some jsonArgsMsg⟩) := by
  refine ⟨?_, ?_, ?_, ?_, ?_, ?_, ?_, ?_⟩
  · intro h
    subst h
    rfl
  · intro h0 h1
    simp [parseFunctionCall, h0, h1]
  · intro h0 h1 h2
    rcases h2 with h2 | h2 <;> simp [parseFunctionCall, h0, h1, h2]
  · intro h0 h1 h2 h3 h4 h5
    simp [parseFunctionCall, h0, h1, h2, h3, h4, h5]
  · intro h0 h1 h2 h3 h4 h5
    simp [parseFunctionCall, h0, h1, h2, h3, h4, h5]
  · intro m f a h0 h1 h2 h3 h4 h5 h6
    simp [parseFunctionCall, h0, h1, h2, h3, h4, h5, h6]
  · intro m f a h0 h1 h2 h3 h4 h5 h6 h7
    simp [parseFunctionCall, h0, h1, h2, h3, h4, h5, h6, h7]
  · intro m f a h0 h1 h2 h3 h4 h5 h6 h7 h8
    simp [parseFunctionCall, h0, h1, h2, h3, h4, h5, h6, h7, h8]

/-- Witness for C3: one concrete call string per diagnostic, including the
    spec's `bird.fly("Eagle"，100)` full-width-comma and
    `cat.purr("Fluffy",)` trailing-comma examples. -/
theorem parser_ordered_diagnostics_witness :
    parseFunctionCall jp0 "" = ⟨"", "", [], some emptyCallMsg⟩ ∧
    parseFunctionCall jp0 "abc" = ⟨"", "", [], some missingModuleMsg⟩ ∧
    parseFunctionCall jp0 "a.b" = ⟨"", "", [], some missingParensMsg⟩ ∧
    parseFunctionCall jp0 "1a.b(x)" = ⟨"", "", [], some invalidNameMsg⟩ ∧
    parseFunctionCall jp0 "a.b.c(x)" = ⟨"", "", [], some invalidFormatMsg⟩ ∧
    parseFunctionCall jp0 "bird.fly(\"Eagle\"，100)" =
      ⟨"bird", "fly", [], some fullWidthCommaMsg⟩ ∧
    parseFunctionCall jp0 "cat.purr(\"Fluffy\",)" =
      ⟨"cat", "purr", [], some trailingCommaMsg⟩ ∧
    parseFunctionCall jp0 "dog.bark(xyz)" = ⟨"dog", "bark", [], some jsonArgsMsg⟩ :=
  ⟨(parser_ordered_diagnostics jp0 "").1 rfl,
   (parser_ordered_diagnostics jp0 "abc").2.1 (by decide) (by decide),
   (parser_ordered_diagnostics jp0 "a.b").2.2.1 (by decide) (by decide) (Or.inl (by decide)),
   (parser_ordered_diagnostics jp0 "1a.b(x)").2.2.2.1 (by decide) (by decide) (by decide)
     (by decide) (by decide) (by decide),
   (parser_ordered_diagnostics jp0 "a.b.c(x)").2.2.2.2.1 (by decide) (by decide) (by decide)
     (by decide) (by decide) (by decide),
   (parser_ordered_diagnostics jp0 "bird.fly(\"Eagle\"，100)").2.2.2.2.2.1
     "bird" "fly" "\"Eagle\"，100" (by decide) (by decide) (by decide) (by decide) (by decide)
     (by decide) (by decide),
   (parser_ordered_diagnostics jp0 "cat.purr(\"Fluffy\",)").2.2.2.2.2.2.1
     "cat" "purr" "\"Fluffy\"," (by decide) (by decide) (by decide) (by decide) (by decide)
     (by decide) (by decide) (by decide),
   (parser_ordered_diagnostics jp0 "dog.bark(xyz)").2.2.2.2.2.2.2
     "dog" "bark" "xyz" (by decide) (by decide) (by decide) (by decide) (by decide)
     (by decide) (by decide) (by decide) rfl⟩

end DynMod
